import Mathlib

/-!
Verification of the neural-machine-translation tutorial notebook
(`docs/tutorials/nmt_with_attention.ipynb`).

The development shallowly embeds the notebook's own code:

* the text pipeline `unicode_to_ascii` / `preprocess_sentence` as executable
  functions on character lists;
* `BahdanauAttention.call`, `Decoder.call` and `loss_function` as functions
  over real-valued tensors, with library layers (`Dense`, `GRU`, embeddings)
  represented by their mathematical definitions or by explicit parameters;
* the `train_step` teacher-forcing loop and the `evaluate` greedy-decoding
  loop as explicit recursions, with the framework pieces that the notebook
  merely calls (encoder, recurrent cell, autodiff tape, optimizer) kept as
  abstract parameters of the corresponding environment structure;
* the `tf.train.Checkpoint` save / restore pair as a snapshot model.

Tensors of shape `(batch, len, hidden)` are functions
`Fin batch → Fin len → Fin hidden → ℝ`; the time axis (`axis=1`) is the
middle index.
-/

namespace NMT

/-! ## Characters and the preprocessing pipeline (`preprocess_sentence`) -/

/-- ASCII lowercase test, written on the character order (`'a' ≤ c ≤ 'z'`). -/
def isLowerA (c : Char) : Bool := decide ('a' ≤ c) && decide (c ≤ 'z')

/-- ASCII uppercase test (`'A' ≤ c ≤ 'Z'`). -/
def isUpperA (c : Char) : Bool := decide ('A' ≤ c) && decide (c ≤ 'Z')

/-- The ASCII part of Python `str.lower`, as an explicit table `A ↦ a`, …, `Z ↦ z`. -/
def asciiLowerTable : List (Char × Char) :=
  [('A', 'a'), ('B', 'b'), ('C', 'c'), ('D', 'd'), ('E', 'e'), ('F', 'f'), ('G', 'g'),
   ('H', 'h'), ('I', 'i'), ('J', 'j'), ('K', 'k'), ('L', 'l'), ('M', 'm'), ('N', 'n'),
   ('O', 'o'), ('P', 'p'), ('Q', 'q'), ('R', 'r'), ('S', 's'), ('T', 't'), ('U', 'u'),
   ('V', 'v'), ('W', 'w'), ('X', 'x'), ('Y', 'y'), ('Z', 'z')]

/-- Lowercasing for the accented Latin capitals occurring in the Spanish data;
the rest of the Unicode lowercasing table is irrelevant here because every
non-ASCII character is later replaced by a space. -/
def accentLowerTable : List (Char × Char) :=
  [('Á', 'á'), ('É', 'é'), ('Í', 'í'), ('Ó', 'ó'), ('Ú', 'ú'), ('Ñ', 'ñ'), ('Ü', 'ü')]

/-- Python `str.lower`, restricted to the alphabet this notebook feeds it. -/
def pyLower (c : Char) : Char := ((asciiLowerTable ++ accentLowerTable).lookup c).getD c

/-- Combining acute accent (U+0301). -/
def combiningAcute : Char := '́'

/-- Combining tilde (U+0303). -/
def combiningTilde : Char := '̃'

/-- Combining diaeresis (U+0308). -/
def combiningDiaeresis : Char := '̈'

/-- Canonical (NFD) decompositions for the accented Latin letters in the data;
`unicodedata.normalize('NFD', ·)` is an external Unicode table, modelled here by
the rows that the notebook's data exercises, all other characters decomposing
to themselves. -/
def nfdTable : List (Char × List Char) :=
  [('á', ['a', combiningAcute]), ('é', ['e', combiningAcute]), ('í', ['i', combiningAcute]),
   ('ó', ['o', combiningAcute]), ('ú', ['u', combiningAcute]),
   ('ñ', ['n', combiningTilde]), ('ü', ['u', combiningDiaeresis])]

/-- NFD decomposition of one character. -/
def nfdChar (c : Char) : List Char := (nfdTable.lookup c).getD [c]

/-- Test for the category `Mn` (nonspacing combining mark), on the marks the
`nfdTable` can produce. -/
def isMn (c : Char) : Bool :=
  c == combiningAcute || c == combiningTilde || c == combiningDiaeresis

/-- The notebook's `unicode_to_ascii`: NFD-normalize, then drop every character
of category `Mn`. -/
def unicode_to_ascii (s : List Char) : List Char :=
  (s.flatMap nfdChar).filter (fun c => !(isMn c))

/-- Python `str.strip`: drop whitespace from both ends. -/
def pyStrip (l : List Char) : List Char :=
  ((l.dropWhile Char.isWhitespace).reverse.dropWhile Char.isWhitespace).reverse

/-- The punctuation class `[?.!,¿]` of the two substitutions. -/
def puncts : List Char := ['?', '.', '!', ',', '¿']

/-- First substitution `re.sub(r"([?.!,¿])", r" \1 ", w)`: put a space on both
sides of each punctuation character. -/
def padPunct (l : List Char) : List Char :=
  l.flatMap (fun c => if c ∈ puncts then [' ', c, ' '] else [c])

/-- Replace every maximal run of characters matched by `p` with one space
(the effect of `re.sub` with a character class followed by `+`).  The Boolean
records whether the scanner is inside a run whose space was already emitted. -/
def collapseAux (p : Char → Bool) : Bool → List Char → List Char
  | _, [] => []
  | inRun, c :: cs =>
    if p c then
      (if inRun then collapseAux p true cs else ' ' :: collapseAux p true cs)
    else c :: collapseAux p false cs

/-- Replace every maximal run of characters matched by `p` with one space. -/
def collapseRuns (p : Char → Bool) (l : List Char) : List Char := collapseAux p false l

/-- The class `[" "]` of the second substitution: a double quote or a space. -/
def isSpaceOrQuote (c : Char) : Bool := c == '"' || c == ' '

/-- The class `[a-zA-Z?.!,¿]` kept by the third substitution. -/
def allowedChar (c : Char) : Bool := isLowerA c || isUpperA c || puncts.contains c

/-- The notebook's `preprocess_sentence`, on character lists: lowercase and
strip, remove accents, pad punctuation, collapse `[" "]+` runs, replace
`[^a-zA-Z?.!,¿]+` runs by one space, strip, and wrap in start / end markers. -/
def preprocessChars (w : List Char) : List Char :=
  let w1 := unicode_to_ascii (pyStrip (w.map pyLower))
  let w2 := padPunct w1
  let w3 := collapseRuns isSpaceOrQuote w2
  let w4 := collapseRuns (fun c => !(allowedChar c)) w3
  let w5 := pyStrip w4
  "<start> ".data ++ w5 ++ " <end>".data

/-- The notebook's `preprocess_sentence`. -/
def preprocess_sentence (w : String) : String := String.mk (preprocessChars w.data)

/-- The cleaned sentence placed between the `<start>` and `<end>` markers. -/
def cleanedBody (w : String) : List Char :=
  pyStrip (collapseRuns (fun c => !(allowedChar c))
    (collapseRuns isSpaceOrQuote (padPunct (unicode_to_ascii (pyStrip (w.data.map pyLower))))))

/-- The pipeline in the order the specification lists its passes: lowercase and
strip, remove accents, pad punctuation, replace `[^a-zA-Z?.!,¿]+` runs by one
space, collapse repeated spaces, strip, wrap. -/
def specPreprocess (w : String) : String :=
  let w1 := unicode_to_ascii (pyStrip (w.data.map pyLower))
  let w2 := padPunct w1
  let w3 := collapseRuns (fun c => !(allowedChar c)) w2
  let w4 := collapseRuns (fun c => c == ' ') w3
  let w5 := pyStrip w4
  String.mk ("<start> ".data ++ w5 ++ " <end>".data)

/-- No two adjacent characters are both spaces. -/
def singleSpaced : List Char → Bool
  | [] => true
  | [_] => true
  | a :: b :: t => !(a == ' ' && b == ' ') && singleSpaced (b :: t)

/-- A character the claim allows in the interior of a preprocessed sentence:
a lowercase ASCII letter, one of `? . ! , ¿`, or a space. -/
def interiorChar (c : Char) : Bool := isLowerA c || puncts.contains c || c == ' '

/-- First character is a space (false on the empty list). -/
def firstIsSpace : List Char → Bool
  | [] => false
  | c :: _ => c == ' '

/-! ### Lemmas about the pipeline combinators -/

theorem lookup_mem {α β : Type} [BEq α] [LawfulBEq α] {a : α} {b : β} :
    ∀ {l : List (α × β)}, l.lookup a = some b → (a, b) ∈ l := by
  intro l
  induction l with
  | nil => intro h; simp [List.lookup] at h
  | cons p es ih =>
    obtain ⟨k, v⟩ := p
    intro h
    simp only [List.lookup] at h
    split at h
    · next heq =>
      cases h
      exact List.mem_cons.2 (Or.inl (by rw [eq_of_beq heq]))
    · next heq => exact List.mem_cons.2 (Or.inr (ih h))

theorem mem_pyStrip {c : Char} {l : List Char} (h : c ∈ pyStrip l) : c ∈ l := by
  unfold pyStrip at h
  rw [List.mem_reverse] at h
  have h2 := List.Sublist.mem h (List.dropWhile_sublist _)
  rw [List.mem_reverse] at h2
  exact List.Sublist.mem h2 (List.dropWhile_sublist _)

theorem mem_collapseAux {p : Char → Bool} {c : Char} :
    ∀ {l : List Char} {b : Bool}, c ∈ collapseAux p b l → c = ' ' ∨ (c ∈ l ∧ p c = false) := by
  intro l
  induction l with
  | nil => intro b h; simp [collapseAux] at h
  | cons d cs ih =>
    intro b h
    rw [collapseAux] at h
    by_cases hd : p d
    · rw [if_pos hd] at h
      have h' : c = ' ' ∨ c ∈ collapseAux p true cs := by
        cases b with
        | true => exact Or.inr (by simpa using h)
        | false => simpa [List.mem_cons] using h
      rcases h' with h' | h'
      · exact Or.inl h'
      · rcases ih h' with h'' | h''
        · exact Or.inl h''
        · exact Or.inr ⟨List.mem_cons_of_mem _ h''.1, h''.2⟩
    · rw [if_neg hd] at h
      rcases List.mem_cons.1 h with h' | h'
      · subst h'
        exact Or.inr ⟨List.mem_cons_self _ _, by simpa using hd⟩
      · rcases ih h' with h'' | h''
        · exact Or.inl h''
        · exact Or.inr ⟨List.mem_cons_of_mem _ h''.1, h''.2⟩

theorem mem_padPunct {c : Char} {l : List Char} (h : c ∈ padPunct l) : c = ' ' ∨ c ∈ l := by
  rw [padPunct, List.mem_flatMap] at h
  obtain ⟨d, hd, hc⟩ := h
  by_cases hdp : d ∈ puncts
  · rw [if_pos hdp] at hc
    simp only [List.mem_cons, List.not_mem_nil, or_false] at hc
    rcases hc with hc | hc | hc
    · exact Or.inl hc
    · exact Or.inr (hc ▸ hd)
    · exact Or.inl hc
  · rw [if_neg hdp] at hc
    simp only [List.mem_singleton] at hc
    exact Or.inr (hc ▸ hd)

theorem mem_unicode_to_ascii {c : Char} {l : List Char} (h : c ∈ unicode_to_ascii l) :
    ∃ d ∈ l, c ∈ nfdChar d := by
  rw [unicode_to_ascii, List.mem_filter] at h
  exact List.mem_flatMap.1 h.1

theorem pyLower_not_upper (c : Char) : isUpperA (pyLower c) = false := by
  by_cases hu : isUpperA c = true
  · rw [isUpperA, Bool.and_eq_true] at hu
    obtain ⟨hA, hZ⟩ := hu
    have h1 : 65 ≤ c.toNat := of_decide_eq_true hA
    have h2 : c.toNat ≤ 90 := of_decide_eq_true hZ
    have hc : c = Char.ofNat c.toNat := (Char.ofNat_toNat c).symm
    interval_cases h : c.toNat <;> rw [hc] <;> decide
  · rw [Bool.not_eq_true] at hu
    rw [pyLower]
    cases hl : (asciiLowerTable ++ accentLowerTable).lookup c with
    | none => simpa using hu
    | some v =>
      have hmem := lookup_mem hl
      have hall : ∀ p ∈ asciiLowerTable ++ accentLowerTable, isUpperA p.2 = false := by decide
      simpa using hall _ hmem

theorem nfdChar_not_upper {c d : Char} (h : isUpperA c = false) (hd : d ∈ nfdChar c) :
    isUpperA d = false := by
  rw [nfdChar] at hd
  cases hl : nfdTable.lookup c with
  | none =>
    rw [hl] at hd
    simp at hd
    exact hd ▸ h
  | some ds =>
    rw [hl] at hd
    have hmem := lookup_mem hl
    have hall : ∀ p ∈ nfdTable, ∀ e ∈ p.2, isUpperA e = false := by decide
    exact hall _ hmem _ (by simpa using hd)

theorem collapseAux_absorb {p q : Char → Bool} (hq : ∀ c, q c = true → p c = true)
    (hp : p ' ' = true) :
    ∀ (l : List Char) (b b' : Bool), (b' = true → b = true) →
      collapseAux p b (collapseAux q b' l) = collapseAux p b l := by
  intro l
  induction l with
  | nil => intro b b' _; simp [collapseAux]
  | cons c cs ih =>
    intro b b' hb
    by_cases hqc : q c = true
    · have hpc : p c = true := hq c hqc
      cases b' with
      | true =>
        have hbt : b = true := hb rfl
        subst hbt
        rw [collapseAux, if_pos hqc, if_pos rfl, collapseAux, if_pos hpc, if_pos rfl]
        exact ih true true (fun _ => rfl)
      | false =>
        rw [collapseAux, if_pos hqc, if_neg (by simp)]
        cases b with
        | true =>
          rw [collapseAux, if_pos hp, if_pos rfl, collapseAux, if_pos hpc, if_pos rfl]
          exact ih true true (fun _ => rfl)
        | false =>
          rw [collapseAux, if_pos hp, if_neg (by simp), collapseAux, if_pos hpc,
            if_neg (by simp)]
          rw [ih true true (fun _ => rfl)]
    · rw [collapseAux, if_neg hqc]
      by_cases hpc : p c = true
      · cases b with
        | true =>
          rw [collapseAux, if_pos hpc, if_pos rfl, collapseAux, if_pos hpc, if_pos rfl]
          exact ih true false (fun h => by cases h)
        | false =>
          rw [collapseAux, if_pos hpc, if_neg (by simp), collapseAux, if_pos hpc,
            if_neg (by simp)]
          rw [ih true false (fun h => by cases h)]
      · rw [collapseAux, if_neg hpc, collapseAux, if_neg hpc]
        rw [ih false false (fun h => by cases h)]

theorem collapseAux_collapse_spaces {p s : Char → Bool} (hs : ∀ c, s c = true → p c = true)
    (hsp : s ' ' = true) :
    ∀ (l : List Char) (b : Bool), collapseAux s b (collapseAux p b l) = collapseAux p b l := by
  intro l
  induction l with
  | nil => intro b; simp [collapseAux]
  | cons c cs ih =>
    intro b
    by_cases hpc : p c = true
    · cases b with
      | true =>
        rw [collapseAux, if_pos hpc, if_pos rfl]
        exact ih true
      | false =>
        rw [collapseAux, if_pos hpc, if_neg (by simp), collapseAux, if_pos hsp,
          if_neg (by simp)]
        rw [ih true]
    · have hsc : s c = false := by
        cases h : s c with
        | false => rfl
        | true => exact absurd (hs c h) hpc
      rw [collapseAux, if_neg hpc, collapseAux, if_neg (by rw [hsc]; exact Bool.false_ne_true)]
      rw [ih false]

theorem spaceOrQuote_not_allowed (c : Char) (h : isSpaceOrQuote c = true) :
    (!(allowedChar c)) = true := by
  rw [isSpaceOrQuote, Bool.or_eq_true] at h
  rcases h with h | h
  · rw [eq_of_beq h]; decide
  · rw [eq_of_beq h]; decide

theorem space_not_allowed (c : Char) (h : (c == ' ') = true) : (!(allowedChar c)) = true := by
  rw [eq_of_beq h]; decide

/-- The two pipelines agree: collapsing `[" "]+` runs before the catch-all
substitution has the same effect as collapsing repeated spaces after it. -/
theorem preprocess_eq_specPreprocess (w : String) :
    preprocess_sentence w = specPreprocess w := by
  rw [preprocess_sentence, preprocessChars, specPreprocess]
  rw [collapseRuns, collapseRuns, collapseRuns, collapseRuns]
  rw [collapseAux_absorb spaceOrQuote_not_allowed (by decide) _ false false (fun h => h)]
  rw [collapseAux_collapse_spaces space_not_allowed (by decide)]

/-- The preprocessed sentence is the cleaned body wrapped in the two markers. -/
theorem preprocess_eq_wrap (w : String) :
    preprocess_sentence w = String.mk ("<start> ".data ++ cleanedBody w ++ " <end>".data) := by
  rfl

/-- Adjacent characters are not both spaces. -/
def noDoubleSpace (a b : Char) : Prop := ¬(a = ' ' ∧ b = ' ')

theorem singleSpaced_iff_chain : ∀ {l : List Char},
    singleSpaced l = true ↔ l.Chain' noDoubleSpace
  | [] => by simp [singleSpaced]
  | [a] => by simp [singleSpaced]
  | a :: b :: t => by
    rw [singleSpaced, List.chain'_cons, Bool.and_eq_true, singleSpaced_iff_chain]
    have : (!(a == ' ' && b == ' ')) = true ↔ noDoubleSpace a b := by
      rw [Bool.not_eq_true', Bool.and_eq_false_iff, noDoubleSpace]
      constructor
      · rintro (h | h) ⟨ha, hb⟩
        · exact absurd ha (by simpa using h)
        · exact absurd hb (by simpa using h)
      · intro h
        by_cases ha : a = ' '
        · right
          by_cases hb : b = ' '
          · exact absurd ⟨ha, hb⟩ h
          · simpa using hb
        · left
          simpa using ha
    rw [this]

theorem chain_collapseAux {p : Char → Bool} (hp : p ' ' = true) :
    ∀ (l : List Char) (b : Bool),
      (b = true → firstIsSpace (collapseAux p b l) = false) ∧
        singleSpaced (collapseAux p b l) = true := by
  intro l
  induction l with
  | nil => intro b; exact ⟨fun _ => rfl, rfl⟩
  | cons c cs ih =>
    intro b
    by_cases hpc : p c = true
    · cases b with
      | true =>
        rw [collapseAux, if_pos hpc, if_pos rfl]
        exact ih true
      | false =>
        rw [collapseAux, if_pos hpc, if_neg (by simp)]
        refine ⟨(fun h => nomatch h), ?_⟩
        have ihs := ih true
        cases hcc : collapseAux p true cs with
        | nil => rfl
        | cons d ds =>
          have hd : (d == ' ') = false := by
            have h1 := ihs.1 rfl
            rw [hcc] at h1
            exact h1
          have h2 := ihs.2
          rw [hcc] at h2
          rw [singleSpaced, Bool.and_eq_true]
          exact ⟨by simp [hd], h2⟩
    · have hc : (c == ' ') = false := by
        cases h : c == ' ' with
        | false => rfl
        | true => exact absurd (eq_of_beq h ▸ hp) (by simpa using hpc)
      rw [collapseAux, if_neg hpc]
      refine ⟨fun _ => hc, ?_⟩
      have ihs := ih false
      cases hcc : collapseAux p false cs with
      | nil => rfl
      | cons d ds =>
        have h2 := ihs.2
        rw [hcc] at h2
        rw [singleSpaced, Bool.and_eq_true]
        exact ⟨by simp [hc], h2⟩

theorem firstIsSpace_of_prefix {Y A : List Char} (h : Y <+: A) (hA : firstIsSpace A = false) :
    firstIsSpace Y = false := by
  cases Y with
  | nil => rfl
  | cons c t =>
    obtain ⟨r, hr⟩ := h
    rw [← hr] at hA
    exact hA

theorem dropWhile_ws_first (l : List Char) :
    firstIsSpace (l.dropWhile Char.isWhitespace) = false := by
  induction l with
  | nil => rfl
  | cons c cs ih =>
    rw [List.dropWhile]
    cases h : Char.isWhitespace c with
    | true => simpa [h] using ih
    | false =>
      have hc : c ≠ ' ' := by
        intro hc
        rw [hc] at h
        exact absurd h (by decide)
      simpa [firstIsSpace] using hc

theorem pyStrip_first (l : List Char) : firstIsSpace (pyStrip l) = false := by
  rw [pyStrip]
  have hBsuf := List.dropWhile_suffix (l := (l.dropWhile Char.isWhitespace).reverse)
    Char.isWhitespace
  have hpre : ((l.dropWhile Char.isWhitespace).reverse.dropWhile Char.isWhitespace).reverse
      <+: l.dropWhile Char.isWhitespace := by
    have h2 := List.reverse_prefix.2 hBsuf
    simpa using h2
  exact firstIsSpace_of_prefix hpre (dropWhile_ws_first l)

theorem pyStrip_last (l : List Char) : firstIsSpace (pyStrip l).reverse = false := by
  rw [pyStrip, List.reverse_reverse]
  exact dropWhile_ws_first _

theorem chain_pyStrip {l : List Char} (h : l.Chain' noDoubleSpace) :
    (pyStrip l).Chain' noDoubleSpace := by
  have hsym : ∀ (m : List Char), m.Chain' noDoubleSpace → m.reverse.Chain' noDoubleSpace := by
    intro m hm
    rw [List.chain'_reverse]
    exact hm.imp (fun _ _ hab hxy => hab ⟨hxy.2, hxy.1⟩)
  have h1 : (l.dropWhile Char.isWhitespace).Chain' noDoubleSpace :=
    h.infix (List.dropWhile_suffix _).isInfix
  have h2 := hsym _ h1
  have h3 := h2.infix (List.dropWhile_suffix Char.isWhitespace).isInfix
  exact hsym _ h3

theorem cleanedBody_chars {w : String} {c : Char} (h : c ∈ cleanedBody w) :
    interiorChar c = true := by
  rw [cleanedBody] at h
  have h4 := mem_pyStrip h
  rw [collapseRuns] at h4
  rcases mem_collapseAux h4 with h5 | ⟨h5, hna⟩
  · subst h5; decide
  · have hal : allowedChar c = true := by simpa using hna
    rw [collapseRuns] at h5
    rcases mem_collapseAux h5 with h6 | ⟨h6, _⟩
    · subst h6; decide
    · rcases mem_padPunct h6 with h7 | h7
      · subst h7; decide
      · obtain ⟨d, hd, hcd⟩ := mem_unicode_to_ascii h7
        have hd2 := mem_pyStrip hd
        obtain ⟨e, _, hde⟩ := List.mem_map.1 hd2
        have hdu : isUpperA d = false := hde ▸ pyLower_not_upper e
        have hcu : isUpperA c = false := nfdChar_not_upper hdu hcd
        rw [allowedChar, Bool.or_eq_true, Bool.or_eq_true] at hal
        rcases hal with (hl | hu) | hp
        · simp [interiorChar, hl]
        · rw [hcu] at hu
          exact absurd hu (by simp)
        · rw [interiorChar, hp]
          simp

theorem cleanedBody_noDouble (w : String) : singleSpaced (cleanedBody w) = true := by
  rw [singleSpaced_iff_chain]
  have hna : (fun c => !(allowedChar c)) ' ' = true := by decide
  have hchain4 : (collapseRuns (fun c => !(allowedChar c))
      (collapseRuns isSpaceOrQuote (padPunct
        (unicode_to_ascii (pyStrip (w.data.map pyLower)))))).Chain' noDoubleSpace := by
    rw [← singleSpaced_iff_chain, collapseRuns]
    exact (chain_collapseAux hna _ false).2
  rw [cleanedBody]
  exact chain_pyStrip hchain4

/-- Claim C6: `preprocess_sentence` equals the stated composition of
regular-expression passes (also in the pass order the specification lists),
and its result is `'<start> ' + w + ' <end>'` for the cleaned sentence `w`,
which contains only lowercase ASCII letters, the punctuation `? . ! , ¿` and
spaces, with no two adjacent spaces and no leading or trailing space — so the
result begins with `<start>`, ends with `<end>`, and its interior holds only
those characters with single spaces between words. -/
theorem preprocess_sentence_correct (w : String) :
    preprocess_sentence w = specPreprocess w ∧
    preprocess_sentence w = String.mk ("<start> ".data ++ cleanedBody w ++ " <end>".data) ∧
    (∀ c ∈ cleanedBody w, interiorChar c = true) ∧
    singleSpaced (cleanedBody w) = true ∧
    firstIsSpace (cleanedBody w) = false ∧
    firstIsSpace (cleanedBody w).reverse = false :=
  ⟨preprocess_eq_specPreprocess w, preprocess_eq_wrap w,
    fun _ hc => cleanedBody_chars hc, cleanedBody_noDouble w,
    pyStrip_first _, pyStrip_last _⟩

/-! ## Dense layers, softmax, and `BahdanauAttention` -/

/-- A Keras `Dense(m)` layer on inputs of width `n`: `y = W·x + b`, applied to
the last axis of its input tensor. -/
noncomputable def dense {m n : ℕ} (W : Fin m → Fin n → ℝ) (b : Fin m → ℝ)
    (x : Fin n → ℝ) : Fin m → ℝ :=
  fun o => (∑ i, W o i * x i) + b o

/-- `tf.nn.softmax` along an axis of length `L`, in exact real arithmetic. -/
noncomputable def softmax {L : ℕ} (s : Fin L → ℝ) : Fin L → ℝ :=
  fun l => Real.exp (s l) / ∑ k, Real.exp (s k)

/-- The trainable parameters of `BahdanauAttention(units)`: the dense layers
`W1` (reading queries of width `Q`), `W2` (reading values of width `H`) and the
scalar-valued `V`. -/
structure BahdanauAttention (units Q H : ℕ) where
  W1w : Fin units → Fin Q → ℝ
  W1b : Fin units → ℝ
  W2w : Fin units → Fin H → ℝ
  W2b : Fin units → ℝ
  Vw : Fin 1 → Fin units → ℝ
  Vb : Fin 1 → ℝ

/-- `BahdanauAttention.call(query, values)` as written in the notebook:
`query` gets a time axis of length 1, the dense layers apply to the last axis
and the addition broadcasts along the time axis, `softmax` runs over `axis=1`
(the `L` axis), and the context vector is the sum over the time axis of
`attention_weights * values`. -/
noncomputable def BahdanauAttention.call {u Q H B L : ℕ} (A : BahdanauAttention u Q H)
    (query : Fin B → Fin Q → ℝ) (values : Fin B → Fin L → Fin H → ℝ) :
    (Fin B → Fin H → ℝ) × (Fin B → Fin L → Fin 1 → ℝ) :=
  let query_with_time_axis : Fin B → Fin 1 → Fin Q → ℝ := fun b _ => query b
  let score : Fin B → Fin L → Fin 1 → ℝ := fun b l =>
    dense A.Vw A.Vb (fun j =>
      Real.tanh (dense A.W1w A.W1b (query_with_time_axis b 0) j
        + dense A.W2w A.W2b (values b l) j))
  let attention_weights : Fin B → Fin L → Fin 1 → ℝ :=
    fun b l j => softmax (fun k => score b k j) l
  let context_vector0 : Fin B → Fin L → Fin H → ℝ :=
    fun b l h => attention_weights b l 0 * values b l h
  let context_vector : Fin B → Fin H → ℝ := fun b h => ∑ l, context_vector0 b l h
  (context_vector, attention_weights)

/-- The textbook score `denseV(tanh(denseW1(query) + denseW2(values)))`,
written from the specification's words, with no time-axis bookkeeping. -/
noncomputable def textbookScore {u Q H B L : ℕ} (A : BahdanauAttention u Q H)
    (query : Fin B → Fin Q → ℝ) (values : Fin B → Fin L → Fin H → ℝ)
    (b : Fin B) (l : Fin L) : ℝ :=
  dense A.Vw A.Vb (fun j =>
    Real.tanh (dense A.W1w A.W1b (query b) j + dense A.W2w A.W2b (values b l) j)) 0

/-- Textbook attention weights: softmax of the scores over the time axis. -/
noncomputable def textbookWeights {u Q H B L : ℕ} (A : BahdanauAttention u Q H)
    (query : Fin B → Fin Q → ℝ) (values : Fin B → Fin L → Fin H → ℝ)
    (b : Fin B) : Fin L → ℝ :=
  softmax (fun l => textbookScore A query values b l)

/-- Textbook context vector: the weighted sum of the values over the time axis. -/
noncomputable def textbookContext {u Q H B L : ℕ} (A : BahdanauAttention u Q H)
    (query : Fin B → Fin Q → ℝ) (values : Fin B → Fin L → Fin H → ℝ)
    (b : Fin B) (h : Fin H) : ℝ :=
  ∑ l, textbookWeights A query values b l * values b l h

theorem BahdanauAttention.call_weights_eq {u Q H B L : ℕ} (A : BahdanauAttention u Q H)
    (query : Fin B → Fin Q → ℝ) (values : Fin B → Fin L → Fin H → ℝ) :
    (A.call query values).2 = fun b l (_ : Fin 1) => textbookWeights A query values b l := by
  funext b l j
  have hj : j = 0 := Subsingleton.elim j 0
  rw [hj]
  rfl

/-- Claim C1: for every query of shape `(B, Q)` and values of shape
`(B, L, H)`, `BahdanauAttention.call` computes
`score = V(tanh(W1(expand_dims(query, 1)) + W2(values)))`, attention weights
`softmax(score, axis=1)`, and returns as context vector the sum over the time
axis of `attention_weights * values` — exactly the textbook formula. -/
theorem BahdanauAttention.call_textbook {u Q H B L : ℕ} (A : BahdanauAttention u Q H)
    (query : Fin B → Fin Q → ℝ) (values : Fin B → Fin L → Fin H → ℝ) :
    (A.call query values).1 = (fun b h => textbookContext A query values b h) ∧
    (A.call query values).2 = (fun b l _ => textbookWeights A query values b l) :=
  ⟨rfl, BahdanauAttention.call_weights_eq A query values⟩

theorem softmax_pos {L : ℕ} (hL : 0 < L) (s : Fin L → ℝ) (l : Fin L) :
    0 < softmax s l := by
  have : Nonempty (Fin L) := ⟨⟨0, hL⟩⟩
  exact div_pos (Real.exp_pos _)
    (Finset.sum_pos (fun i _ => Real.exp_pos _) Finset.univ_nonempty)

theorem softmax_sum_one {L : ℕ} (hL : 0 < L) (s : Fin L → ℝ) :
    ∑ l, softmax s l = 1 := by
  have : Nonempty (Fin L) := ⟨⟨0, hL⟩⟩
  have hpos : 0 < ∑ k, Real.exp (s k) :=
    Finset.sum_pos (fun i _ => Real.exp_pos _) Finset.univ_nonempty
  rw [show (fun l => softmax s l) = fun l => Real.exp (s l) / ∑ k, Real.exp (s k) from rfl]
  rw [← Finset.sum_div]
  exact div_self (ne_of_gt hpos)

/-- Claim C8: the attention weights returned by `BahdanauAttention.call` are a
probability distribution over the time axis: strictly positive, and summing to
1 over the `max_len` encoder positions of each batch element. -/
theorem BahdanauAttention.call_weights_prob {u Q H B L : ℕ} (hL : 0 < L)
    (A : BahdanauAttention u Q H)
    (query : Fin B → Fin Q → ℝ) (values : Fin B → Fin L → Fin H → ℝ) :
    (∀ b l j, 0 < (A.call query values).2 b l j) ∧
      (∀ (b : Fin B) (j : Fin 1), ∑ l, (A.call query values).2 b l j = 1) := by
  constructor
  · intro b l j
    simp only [BahdanauAttention.call_weights_eq]
    exact softmax_pos hL _ l
  · intro b j
    simp only [BahdanauAttention.call_weights_eq]
    exact softmax_sum_one hL _

/-- An all-zero attention layer, used as a concrete instance. -/
noncomputable def attentionZero : BahdanauAttention 1 1 1 :=
  { W1w := fun _ _ => 0, W1b := fun _ => 0, W2w := fun _ _ => 0, W2b := fun _ => 0,
    Vw := fun _ _ => 0, Vb := fun _ => 0 }

/-- Witness for claim C8 at a concrete batch of shape `(1, 1, 1)`. -/
theorem BahdanauAttention.call_weights_prob_witness :
    (∀ b l j, 0 < (attentionZero.call (fun (_ : Fin 1) (_ : Fin 1) => (0 : ℝ))
        (fun (_ : Fin 1) (_ : Fin 1) (_ : Fin 1) => (0 : ℝ))).2 b l j) ∧
      (∀ (b : Fin 1) (j : Fin 1), ∑ l, (attentionZero.call
        (fun (_ : Fin 1) (_ : Fin 1) => (0 : ℝ))
        (fun (_ : Fin 1) (_ : Fin 1) (_ : Fin 1) => (0 : ℝ))).2 b l j = 1) :=
  BahdanauAttention.call_weights_prob (by decide) attentionZero _ _

/-! ## The decoder (`Decoder.call`) -/

/-- The notebook's decoder.  The embedding matrix, the GRU cell and the dense
output layer are the library layers the notebook instantiates; the GRU is kept
as its abstract step function `gruCell` over states of width `U`, which the
layer applies to the length-1 input sequence starting from the all-zero
default initial state (the notebook passes no `initial_state` to the decoder's
GRU). -/
structure Decoder (vocab emb H U uA : ℕ) where
  embedding : Fin vocab → Fin emb → ℝ
  gruCell : (Fin (H + emb) → ℝ) → (Fin U → ℝ) → (Fin U → ℝ)
  fcW : Fin vocab → Fin U → ℝ
  fcb : Fin vocab → ℝ
  attention : BahdanauAttention uA U H

/-- `Decoder.call(x, hidden, enc_output)` as written in the notebook: attention
on `(hidden, enc_output)`, embed `x`, concatenate the context vector with the
embedded token along the last axis, run the GRU, flatten the length-1 time
axis, and apply the final dense layer. -/
noncomputable def Decoder.call {vocab emb H U uA B L : ℕ} (D : Decoder vocab emb H U uA)
    (x : Fin B → Fin 1 → Fin vocab) (hidden : Fin B → Fin U → ℝ)
    (enc_output : Fin B → Fin L → Fin H → ℝ) :
    (Fin B → Fin vocab → ℝ) × (Fin B → Fin U → ℝ) × (Fin B → Fin L → Fin 1 → ℝ) :=
  let ca := BahdanauAttention.call D.attention hidden enc_output
  let context_vector := ca.1
  let attention_weights := ca.2
  let xe : Fin B → Fin 1 → Fin emb → ℝ := fun b t => D.embedding (x b t)
  let xc : Fin B → Fin 1 → Fin (H + emb) → ℝ :=
    fun b t => Fin.append (context_vector b) (xe b t)
  let state : Fin B → Fin U → ℝ := fun b => D.gruCell (xc b 0) (fun _ => 0)
  let output : Fin B → Fin 1 → Fin U → ℝ := fun b _ => state b
  let outputR : Fin B → Fin U → ℝ := fun b => output b 0
  let logits : Fin B → Fin vocab → ℝ := fun b => dense D.fcW D.fcb (outputR b)
  (logits, state, attention_weights)

/-- Claim C3: every `Decoder.call` recomputes attention from the current
decoder hidden state as query against every encoder position; the context
vector is the attention-weighted combination of the encoder outputs; the GRU
consumes the concatenation of that context vector with the embedded input
token; and the returned triple is the dense projection of the GRU output, the
new state, and the attention weights. -/
theorem Decoder.call_spec {vocab emb H U uA B L : ℕ} (D : Decoder vocab emb H U uA)
    (x : Fin B → Fin 1 → Fin vocab) (hidden : Fin B → Fin U → ℝ)
    (enc_output : Fin B → Fin L → Fin H → ℝ) :
    (D.call x hidden enc_output).2.2
        = (BahdanauAttention.call D.attention hidden enc_output).2 ∧
    (BahdanauAttention.call D.attention hidden enc_output).1
        = (fun b h => ∑ l, (D.call x hidden enc_output).2.2 b l 0 * enc_output b l h) ∧
    (D.call x hidden enc_output).2.1
        = (fun b => D.gruCell
            (Fin.append ((BahdanauAttention.call D.attention hidden enc_output).1 b)
              (D.embedding (x b 0))) (fun _ => 0)) ∧
    (D.call x hidden enc_output).1
        = (fun b => dense D.fcW D.fcb ((D.call x hidden enc_output).2.1 b)) :=
  ⟨rfl, rfl, rfl, rfl⟩

/-! ## The loss (`loss_function`) -/

/-- Keras `SparseCategoricalCrossentropy(from_logits=True, reduction='none')`
on one batch element: minus the log of the softmax probability of the true
class. -/
noncomputable def sparse_ce {V : ℕ} (real : Fin V) (pred : Fin V → ℝ) : ℝ :=
  -Real.log (softmax pred real)

/-- The mask of the notebook's `loss_function`:
`cast(logical_not(equal(real, 0)))`. -/
noncomputable def maskValue {B V : ℕ} (real : Fin B → Fin V) (b : Fin B) : ℝ :=
  if (real b : ℕ) = 0 then 0 else 1

/-- The notebook's `loss_function`: per-position cross-entropy multiplied by
the padding mask, then `reduce_mean` over the batch. -/
noncomputable def loss_function {B V : ℕ} (real : Fin B → Fin V)
    (pred : Fin B → Fin V → ℝ) : ℝ :=
  (∑ b, sparse_ce (real b) (pred b) * maskValue real b) / B

/-- Claim C9: `loss_function` multiplies the per-position cross-entropy by 0
exactly at padding positions (`real = 0`), so they contribute nothing to the
returned mean, while non-padding positions contribute their full
cross-entropy. -/
theorem loss_function_mask {B V : ℕ} (real : Fin B → Fin V)
    (pred : Fin B → Fin V → ℝ) :
    (∀ b, (real b : ℕ) = 0 → sparse_ce (real b) (pred b) * maskValue real b = 0) ∧
    (∀ b, (real b : ℕ) ≠ 0 →
      sparse_ce (real b) (pred b) * maskValue real b = sparse_ce (real b) (pred b)) ∧
    loss_function real pred
      = (∑ b, if (real b : ℕ) = 0 then 0 else sparse_ce (real b) (pred b)) / B := by
  refine ⟨?_, ?_, ?_⟩
  · intro b hb
    rw [maskValue, if_pos hb, mul_zero]
  · intro b hb
    rw [maskValue, if_neg hb, mul_one]
  · rw [loss_function]
    congr 1
    apply Finset.sum_congr rfl
    intro b _
    by_cases hb : (real b : ℕ) = 0
    · rw [maskValue, if_pos hb, if_pos hb, mul_zero]
    · rw [maskValue, if_neg hb, if_neg hb, mul_one]

/-! ## The training step (`train_step`) -/

/-- The environment `train_step` runs in: the encoder and decoder as the
functions the notebook calls (the decoder's attention weights are discarded by
`train_step`), the id of the `<start>` token, the two models' trainable
variables, and the framework's tape gradient and optimizer update.  `I` is the
type of input batches, `E` of encoder output tensors, `Hd` of hidden states,
`Th` of trainable variables, `Gr` of gradients and `Opt` of the state produced
by `optimizer.apply_gradients`. -/
structure TrainEnv (B V : ℕ) (I E Hd Th Gr Opt : Type) where
  encoder : I → Hd → E × Hd
  decoder : (Fin B → ℕ) → Hd → E → (Fin B → Fin V → ℝ) × Hd
  startIdx : ℕ
  encVars : List Th
  decVars : List Th
  tapeGrad : ℝ → List Th → List Gr
  applyGradients : List Gr → List Th → Opt

/-- The state of the teacher-forcing loop of `train_step` after iterations
`t = 1 .. k`: the accumulated loss, the decoder hidden state, and the
`dec_input` the next iteration will consume (initially the `<start>` batch,
afterwards the ground-truth column just scored). -/
noncomputable def stepLoop {B V : ℕ} {I E Hd Th Gr Opt : Type}
    (env : TrainEnv B V I E Hd Th Gr Opt) (enc_output : E) (dec_hidden0 : Hd)
    (targ : Fin B → ℕ → Fin V) : ℕ → ℝ × Hd × (Fin B → ℕ)
  | 0 => (0, dec_hidden0, fun _ => env.startIdx)
  | k + 1 =>
    let s := stepLoop env enc_output dec_hidden0 targ k
    let dp := env.decoder s.2.2 s.2.1 enc_output
    (s.1 + loss_function (fun b => targ b (k + 1)) dp.1, dp.2,
      fun b => (targ b (k + 1) : ℕ))

/-- The notebook's `train_step(inp, targ, enc_hidden)`: run the encoder, run
the teacher-forcing loop for `t in range(1, T)` where `T = targ.shape[1]`,
divide the accumulated loss by `T`, differentiate the accumulated loss with
respect to `encoder.trainable_variables + decoder.trainable_variables`, apply
the gradients, and return the batch loss (paired here with the optimizer
update, so that the update is part of the function's meaning). -/
noncomputable def train_step {B V : ℕ} {I E Hd Th Gr Opt : Type}
    (env : TrainEnv B V I E Hd Th Gr Opt) (inp : I) (targ : Fin B → ℕ → Fin V)
    (T : ℕ) (enc_hidden : Hd) : ℝ × Opt :=
  let eo := env.encoder inp enc_hidden
  let s := stepLoop env eo.1 eo.2 targ (T - 1)
  let loss := s.1
  let batch_loss := loss / (T : ℝ)
  let vars := env.encVars ++ env.decVars
  let gradients := env.tapeGrad loss vars
  (batch_loss, env.applyGradients gradients vars)

/-- The `dec_input` consumed by loop iteration `t` of `train_step`
(`t = 1, …, T-1`). -/
noncomputable def trainDecInput {B V : ℕ} {I E Hd Th Gr Opt : Type}
    (env : TrainEnv B V I E Hd Th Gr Opt) (inp : I) (targ : Fin B → ℕ → Fin V)
    (enc_hidden : Hd) (t : ℕ) : Fin B → ℕ :=
  let eo := env.encoder inp enc_hidden
  (stepLoop env eo.1 eo.2 targ (t - 1)).2.2

/-- The decoder hidden state entering loop iteration `t` of `train_step`. -/
noncomputable def trainDecHidden {B V : ℕ} {I E Hd Th Gr Opt : Type}
    (env : TrainEnv B V I E Hd Th Gr Opt) (inp : I) (targ : Fin B → ℕ → Fin V)
    (enc_hidden : Hd) (t : ℕ) : Hd :=
  let eo := env.encoder inp enc_hidden
  (stepLoop env eo.1 eo.2 targ (t - 1)).2.1

/-- The predictions the decoder emits at loop iteration `t` of `train_step`. -/
noncomputable def trainPred {B V : ℕ} {I E Hd Th Gr Opt : Type}
    (env : TrainEnv B V I E Hd Th Gr Opt) (inp : I) (targ : Fin B → ℕ → Fin V)
    (enc_hidden : Hd) (t : ℕ) : Fin B → Fin V → ℝ :=
  let eo := env.encoder inp enc_hidden
  (env.decoder (trainDecInput env inp targ enc_hidden t)
    (trainDecHidden env inp targ enc_hidden t) eo.1).1

/-- The loss `train_step` accumulates over the decode steps `t = 1 .. T-1`. -/
noncomputable def trainLoss {B V : ℕ} {I E Hd Th Gr Opt : Type}
    (env : TrainEnv B V I E Hd Th Gr Opt) (inp : I) (targ : Fin B → ℕ → Fin V)
    (enc_hidden : Hd) (T : ℕ) : ℝ :=
  ∑ t ∈ Finset.Icc 1 (T - 1),
    loss_function (fun b => targ b t) (trainPred env inp targ enc_hidden t)

/-- Claim C2: teacher forcing — the input fed to the decoder at loop iteration
`t` (`1 ≤ t < T`) is the `<start>` token batch when `t = 1` and the
ground-truth target column `t - 1` (the previous position) thereafter; in
particular it never depends on the decoder's predictions, which enter only the
accumulated loss. -/
theorem train_step_teacher_forcing {B V : ℕ} {I E Hd Th Gr Opt : Type}
    (env : TrainEnv B V I E Hd Th Gr Opt) (inp : I) (targ : Fin B → ℕ → Fin V)
    (enc_hidden : Hd) (T t : ℕ) (h1 : 1 ≤ t) (h2 : t < T) :
    trainDecInput env inp targ enc_hidden t
      = if t = 1 then (fun _ => env.startIdx) else fun b => (targ b (t - 1) : ℕ) := by
  rcases t with _ | t
  · exact absurd h1 (by omega)
  · cases t with
    | zero => simp [trainDecInput, stepLoop]
    | succ k =>
      rw [if_neg (by omega)]
      simp only [trainDecInput, Nat.add_sub_cancel]
      rw [stepLoop]

/-- Witness target batch for claim C2. -/
def targZero : Fin 1 → ℕ → Fin 1 := fun _ _ => 0

/-- A trivial training environment over unit types, used as a witness. -/
noncomputable def trainEnvZero : TrainEnv 1 1 Unit Unit Unit Unit Unit Unit :=
  { encoder := fun _ h => ((), h), decoder := fun _ h _ => (fun _ _ => 0, h),
    startIdx := 0, encVars := [], decVars := [],
    tapeGrad := fun _ _ => [], applyGradients := fun _ _ => () }

/-- Witness for claim C2 at the concrete iteration `t = 2` with `T = 3`. -/
theorem train_step_teacher_forcing_witness :
    trainDecInput trainEnvZero () targZero () 2
      = if 2 = 1 then (fun _ => trainEnvZero.startIdx)
        else fun b => (targZero b (2 - 1) : ℕ) :=
  train_step_teacher_forcing trainEnvZero () targZero () 3 2 (by decide) (by decide)

theorem stepLoop_loss {B V : ℕ} {I E Hd Th Gr Opt : Type}
    (env : TrainEnv B V I E Hd Th Gr Opt) (enc_output : E) (dec_hidden0 : Hd)
    (targ : Fin B → ℕ → Fin V) (k : ℕ) :
    (stepLoop env enc_output dec_hidden0 targ k).1
      = ∑ t ∈ Finset.Icc 1 k,
          loss_function (fun b => targ b t)
            (env.decoder (stepLoop env enc_output dec_hidden0 targ (t - 1)).2.2
              (stepLoop env enc_output dec_hidden0 targ (t - 1)).2.1 enc_output).1 := by
  induction k with
  | zero => simp [stepLoop]
  | succ k ih =>
    rw [Finset.sum_Icc_succ_top (by omega), ← ih, Nat.add_sub_cancel]
    rw [stepLoop]

/-- Claim C4: `train_step` accumulates over the decode steps `t = 1 .. T-1`
the masked sparse categorical cross-entropy between `targ[:, t]` and the
decoder predictions, computes the gradient of this accumulated loss with
respect to the concatenation of the encoder's and decoder's trainable
variables, applies those gradients with the optimizer, and returns the
accumulated loss divided by `targ.shape[1] = T`. -/
theorem train_step_spec {B V : ℕ} {I E Hd Th Gr Opt : Type}
    (env : TrainEnv B V I E Hd Th Gr Opt) (inp : I) (targ : Fin B → ℕ → Fin V)
    (T : ℕ) (enc_hidden : Hd) :
    train_step env inp targ T enc_hidden
      = (trainLoss env inp targ enc_hidden T / (T : ℝ),
         env.applyGradients
           (env.tapeGrad (trainLoss env inp targ enc_hidden T)
             (env.encVars ++ env.decVars))
           (env.encVars ++ env.decVars)) := by
  have hl := stepLoop_loss env (env.encoder inp enc_hidden).1
    (env.encoder inp enc_hidden).2 targ (T - 1)
  simp only [train_step]
  rw [hl]
  rfl

/-! ## Greedy decoding (`evaluate`) -/

/-- Python `str.split(' ')` on a character list: cut at every single space,
keeping empty fields. -/
def splitSpace : List Char → List (List Char)
  | [] => [[]]
  | c :: cs =>
    match splitSpace cs with
    | [] => [[]]
    | w :: ws => if c = ' ' then [] :: w :: ws else (c :: w) :: ws

/-- Python `sentence.split(' ')`. -/
def pySplit (s : String) : List String := (splitSpace s.data).map String.mk

/-- `pad_sequences([x], maxlen=m, padding='post')` on a single sequence:
post-pad with the id 0 up to length `m`, truncating from the front (the
default `truncating='pre'`) when longer. -/
def padSequence (x : List ℕ) (m : ℕ) : List ℕ :=
  if m ≤ x.length then x.drop (x.length - m) else x ++ List.replicate (m - x.length) 0

/-- The list comprehension `[inp_lang.word_index[i] for i in ...]`: every word
is looked up unguarded, so one failing lookup (`KeyError`) fails the whole
list. -/
def lookupAll (f : String → Option ℕ) : List String → Option (List ℕ)
  | [] => some []
  | w :: ws =>
    match f w, lookupAll f ws with
    | some i, some is => some (i :: is)
    | _, _ => none

/-- `tf.argmax` over a vector of length `V`: the first index attaining the
maximum (0 when `V = 0`). -/
def argmaxIdx {R : Type} [Preorder R] [DecidableRel (· < · : R → R → Prop)]
    {V : ℕ} (p : Fin V → R) : ℕ :=
  (((List.finRange V).argmax p).map Fin.val).getD 0

/-- Concatenation of predicted words exactly as `evaluate` accumulates them:
`result += targ_lang.index_word[predicted_id] + ' '`. -/
def joinWords : List String → String
  | [] => ""
  | w :: ws => w ++ " " ++ joinWords ws

/-- The environment `evaluate` runs in, over an ordered scalar type `R` for
the model outputs (`ℝ` for the true model; the control flow is the same for
any such type), with `E` the encoder-output type and `Hd` the hidden-state
type: the sizes `max_length_targ` / `max_length_inp`, the target vocabulary
width `V` of the prediction vectors, the fitted tokenizers' lookup tables
(dictionaries, so lookups are partial), the all-zeros initial hidden state,
and the trained encoder and decoder.  The decoder consumes the current input
token id, hidden state and encoder output and returns the prediction vector,
the new hidden state and the flattened attention weights. -/
structure EvalEnv (R E Hd : Type) where
  max_length_targ : ℕ
  max_length_inp : ℕ
  V : ℕ
  inpWordIndex : String → Option ℕ
  targWordIndex : String → Option ℕ
  targIndexWord : ℕ → Option String
  hidden0 : Hd
  encoder : List ℕ → Hd → E × Hd
  decoder : ℕ → Hd → E → (Fin V → R) × Hd × (ℕ → R)

/-- The decode loop of `evaluate`, with the number of remaining iterations as
fuel (`max_length_targ` at entry, matching `for t in range(max_length_targ)`).
Each iteration calls the decoder, stores row `t` of the attention plot, takes
the argmax-predicted id, looks it up in the target `index_word` (`none`
models the `KeyError` when the id is absent), appends the word plus a space
to the result, returns if the word is `<end>`, and otherwise feeds the
predicted id back as the next decoder input.  The third returned component
records the list of predicted words — exactly the words from which the result
string is assembled — so that the loop's trace can be stated. -/
def evalLoop {R E Hd : Type} [Preorder R] [DecidableRel (· < · : R → R → Prop)]
    (env : EvalEnv R E Hd) (enc_out : E) :
    ℕ → ℕ → ℕ → Hd → (ℕ → ℕ → R) → String → List String →
      Option (String × (ℕ → ℕ → R) × List String)
  | 0, _, _, _, plot, result, ws => some (result, plot, ws)
  | fuel + 1, t, dec_input, dec_hidden, plot, result, ws =>
    let d := env.decoder dec_input dec_hidden enc_out
    let plot2 := Function.update plot t d.2.2
    let predicted_id := argmaxIdx d.1
    match env.targIndexWord predicted_id with
    | none => none
    | some w =>
      let result2 := result ++ w ++ " "
      if w = "<end>" then some (result2, plot2, ws ++ [w])
      else evalLoop env enc_out fuel (t + 1) predicted_id d.2.1 plot2 result2 (ws ++ [w])

/-- The notebook's `evaluate(sentence)`, instrumented with the list of
predicted words: preprocess, look every word up in the input vocabulary, pad
to `max_length_inp`, encode from the zero hidden state, look up the `<start>`
id, and run the decode loop on a zero attention plot.  `none` models an
uncaught `KeyError`. -/
def evaluateFull {R E Hd : Type} [Preorder R] [DecidableRel (· < · : R → R → Prop)]
    [Zero R] (env : EvalEnv R E Hd) (sentence : String) :
    Option (String × String × (ℕ → ℕ → R) × List String) :=
  let sentence2 := preprocess_sentence sentence
  match lookupAll env.inpWordIndex (pySplit sentence2) with
  | none => none
  | some inputs0 =>
    let inputs := padSequence inputs0 env.max_length_inp
    let eo := env.encoder inputs env.hidden0
    match env.targWordIndex "<start>" with
    | none => none
    | some startId =>
      match evalLoop env eo.1 env.max_length_targ 0 startId eo.2 (fun _ _ => 0) "" [] with
      | none => none
      | some r => some (r.1, sentence2, r.2.1, r.2.2)

/-- The notebook's `evaluate`: the result string, the preprocessed sentence
and the attention plot. -/
def evaluate {R E Hd : Type} [Preorder R] [DecidableRel (· < · : R → R → Prop)]
    [Zero R] (env : EvalEnv R E Hd) (sentence : String) :
    Option (String × String × (ℕ → ℕ → R)) :=
  (evaluateFull env sentence).map (fun r => (r.1, r.2.1, r.2.2.1))

theorem lookupAll_eq_none {f : String → Option ℕ} {w : String} :
    ∀ {l : List String}, w ∈ l → f w = none → lookupAll f l = none := by
  intro l
  induction l with
  | nil => intro h; cases h
  | cons a as ih =>
    intro hmem hnone
    rcases List.mem_cons.1 hmem with h | h
    · subst h
      rw [lookupAll, hnone]
    · rw [lookupAll, ih h hnone]
      cases f a <;> rfl

theorem lookupAll_isSome {f : String → Option ℕ} :
    ∀ {l : List String}, (∀ w ∈ l, (f w).isSome = true) →
      ∃ is, lookupAll f l = some is := by
  intro l
  induction l with
  | nil => intro _; exact ⟨[], rfl⟩
  | cons a as ih =>
    intro h
    obtain ⟨i, hi⟩ := Option.isSome_iff_exists.1 (h a (List.mem_cons_self a as))
    obtain ⟨is, his⟩ := ih (fun w hw => h w (List.mem_cons_of_mem a hw))
    exact ⟨i :: is, by rw [lookupAll, hi, his]⟩

theorem argmaxIdx_lt {R : Type} [Preorder R] [DecidableRel (· < · : R → R → Prop)]
    {V : ℕ} (hV : 0 < V) (p : Fin V → R) : argmaxIdx p < V := by
  rw [argmaxIdx]
  cases h : (List.finRange V).argmax p with
  | none => simpa using hV
  | some a => exact a.isLt

theorem evalLoop_spec {R E Hd : Type} [Preorder R] [DecidableRel (· < · : R → R → Prop)]
    (env : EvalEnv R E Hd) (enc_out : E)
    (hV : 0 < env.V) (hidx : ∀ n, n < env.V → (env.targIndexWord n).isSome = true) :
    ∀ (fuel t dec_input : ℕ) (dec_hidden : Hd) (plot : ℕ → ℕ → R) (result : String)
      (ws0 : List String),
      ∃ ws plot2,
        evalLoop env enc_out fuel t dec_input dec_hidden plot result ws0
            = some (result ++ joinWords ws, plot2, ws0 ++ ws) ∧
          ws.length ≤ fuel ∧
          (∀ i, i + 1 < ws.length → ws.get? i ≠ some "<end>") ∧
          (ws.length < fuel → ws.getLast? = some "<end>") := by
  intro fuel
  induction fuel with
  | zero =>
    intro t dec_input dec_hidden plot result ws0
    refine ⟨[], plot, ?_, by simp, ?_, ?_⟩
    · rw [evalLoop]
      simp [joinWords]
    · intro i hi
      rw [List.length_nil] at hi
      omega
    · intro h
      rw [List.length_nil] at h
      omega
  | succ fuel ih =>
    intro t dec_input dec_hidden plot result ws0
    obtain ⟨w, hw⟩ := Option.isSome_iff_exists.1
      (hidx _ (argmaxIdx_lt hV (env.decoder dec_input dec_hidden enc_out).1))
    by_cases hend : w = "<end>"
    · refine ⟨[w], Function.update plot t (env.decoder dec_input dec_hidden enc_out).2.2,
        ?_, by simp, fun i hi => by simp at hi, fun _ => by simp [hend]⟩
      rw [evalLoop, hw]
      simp only [if_pos hend]
      simp [joinWords, String.append_assoc]
    · obtain ⟨ws', plot2, heq, hlen, hint, hlast⟩ :=
        ih (t + 1) (argmaxIdx (env.decoder dec_input dec_hidden enc_out).1)
          (env.decoder dec_input dec_hidden enc_out).2.1
          (Function.update plot t (env.decoder dec_input dec_hidden enc_out).2.2)
          (result ++ w ++ " ") (ws0 ++ [w])
      refine ⟨w :: ws', plot2, ?_, by simpa using hlen, ?_, ?_⟩
      · rw [evalLoop, hw]
        simp only [if_neg hend]
        rw [heq]
        simp [joinWords, String.append_assoc, List.append_assoc]
      · intro i hi
        cases i with
        | zero => simpa using hend
        | succ i =>
          have := hint i (by simpa using hi)
          simpa using this
      · intro hlt
        have hlt' : ws'.length < fuel := by simpa using hlt
        have h := hlast hlt'
        cases ws' with
        | nil => cases h
        | cons d ds => rw [List.getLast?_cons_cons]; exact h

/-- Claim C10: `evaluate` fails (the unguarded dictionary lookup in
`inp_lang.word_index` raises a `KeyError`) on every sentence whose
preprocessed form contains a word outside the input vocabulary; no encoding
or decoding is attempted — the result is `none` whatever the encoder and
decoder are. -/
theorem evaluate_oov {R E Hd : Type} [Preorder R]
    [DecidableRel (· < · : R → R → Prop)] [Zero R]
    (env : EvalEnv R E Hd) (sentence : String)
    (h : ∃ w ∈ pySplit (preprocess_sentence sentence), env.inpWordIndex w = none) :
    evaluate env sentence = none := by
  obtain ⟨w, hw, hnone⟩ := h
  have hall := lookupAll_eq_none hw hnone
  simp only [evaluate, evaluateFull, hall]
  rfl

/-- An evaluation environment whose input vocabulary is empty. -/
def envOOV : EvalEnv ℚ Unit Unit :=
  { max_length_targ := 3, max_length_inp := 2, V := 1,
    inpWordIndex := fun _ => none,
    targWordIndex := fun _ => some 1,
    targIndexWord := fun _ => some "x",
    hidden0 := (),
    encoder := fun _ _ => ((), ()),
    decoder := fun _ _ _ => (fun _ => 0, (), fun _ => 0) }

/-- Witness for claim C10 at the concrete sentence `hola`. -/
theorem evaluate_oov_witness : evaluate envOOV "hola" = none :=
  evaluate_oov envOOV "hola" ⟨"hola", by decide, rfl⟩

/-- An environment whose decoder always predicts the id 0, which — as in the
notebook's fitted tokenizer, where the padding id 0 is the only id absent
from `index_word` — has no target `index_word` entry. -/
def envKeyErr : EvalEnv ℚ Unit Unit :=
  { max_length_targ := 3, max_length_inp := 2, V := 1,
    inpWordIndex := fun _ => some 1,
    targWordIndex := fun _ => some 1,
    targIndexWord := fun _ => none,
    hidden0 := (),
    encoder := fun _ _ => ((), ()),
    decoder := fun _ _ _ => (fun _ => 0, (), fun _ => 0) }

/-- Claim C7, counterexample: every preprocessed word of the sentence is in
the input vocabulary, yet `evaluate` returns no triple: the first decode
step's argmax prediction is an id absent from the target `index_word`, and
the unguarded lookup fails. -/
theorem evaluate_keyerror_counterexample :
    (∀ w ∈ pySplit (preprocess_sentence "hola"),
        (envKeyErr.inpWordIndex w).isSome = true) ∧
      evaluate envKeyErr "hola" = none := by
  constructor
  · decide
  · rfl

/-- Claim C7 (amended): for every sentence whose preprocessed words all occur
in the input vocabulary — and provided additionally that the target
tokenizer's `word_index` contains `<start>` and that its `index_word` has an
entry for every id below the prediction width `V` over which `argmax` ranges
(in the notebook's fitted tokenizer every id except the padding id 0 has one)
— `evaluate` terminates and returns the result string, the preprocessed
sentence and the attention plot; its decode loop runs at most
`max_length_targ` steps, feeding each step's argmax-predicted id back as the
next decoder input; no predicted word before the final one is `<end>`; and if
fewer than `max_length_targ` steps ran, the loop returned early because the
predicted token was `<end>`. -/
theorem evaluate_terminates {R E Hd : Type} [Preorder R]
    [DecidableRel (· < · : R → R → Prop)] [Zero R]
    (env : EvalEnv R E Hd) (sentence : String)
    (hstart : (env.targWordIndex "<start>").isSome = true)
    (hwords : ∀ w ∈ pySplit (preprocess_sentence sentence),
      (env.inpWordIndex w).isSome = true)
    (hV : 0 < env.V)
    (hidx : ∀ n, n < env.V → (env.targIndexWord n).isSome = true) :
    ∃ ws plot,
      evaluate env sentence
          = some (joinWords ws, preprocess_sentence sentence, plot) ∧
        ws.length ≤ env.max_length_targ ∧
        (∀ i, i + 1 < ws.length → ws.get? i ≠ some "<end>") ∧
        (ws.length < env.max_length_targ → ws.getLast? = some "<end>") := by
  obtain ⟨is, his⟩ := lookupAll_isSome hwords
  obtain ⟨startId, hstart2⟩ := Option.isSome_iff_exists.1 hstart
  obtain ⟨ws, plot2, heq, hlen, hint, hlast⟩ :=
    evalLoop_spec env
      (env.encoder (padSequence is env.max_length_inp) env.hidden0).1 hV hidx
      env.max_length_targ 0 startId
      (env.encoder (padSequence is env.max_length_inp) env.hidden0).2
      (fun _ _ => 0) "" []
  refine ⟨ws, plot2, ?_, hlen, hint, hlast⟩
  simp only [evaluate, evaluateFull, his, hstart2, heq]
  rfl

/-- An environment whose target `index_word` maps every id to `<end>`. -/
def envEnd : EvalEnv ℚ Unit Unit :=
  { max_length_targ := 3, max_length_inp := 2, V := 1,
    inpWordIndex := fun _ => some 1,
    targWordIndex := fun _ => some 1,
    targIndexWord := fun _ => some "<end>",
    hidden0 := (),
    encoder := fun _ _ => ((), ()),
    decoder := fun _ _ _ => (fun _ => 0, (), fun _ => 0) }

/-- Witness for the amended claim C7 at the concrete sentence `hola`. -/
theorem evaluate_terminates_witness :
    ∃ ws plot,
      evaluate envEnd "hola" = some (joinWords ws, preprocess_sentence "hola", plot) ∧
        ws.length ≤ envEnd.max_length_targ ∧
        (∀ i, i + 1 < ws.length → ws.get? i ≠ some "<end>") ∧
        (ws.length < envEnd.max_length_targ → ws.getLast? = some "<end>") :=
  evaluate_terminates envEnd "hola" (by decide) (by decide) (by decide) (by decide)

/-! ## Checkpointing -/

/-- Modelled from the spec: `tf.train.Checkpoint(optimizer=optimizer,
encoder=encoder, decoder=decoder)` — a "serialized snapshot of model
parameters and optimizer state for later restoration".  The checkpoint object
tracks exactly these three constructor arguments. -/
structure Checkpoint (Opt Enc Dec : Type) where
  optimizer : Opt
  encoder : Enc
  decoder : Dec

/-- Modelled from the spec: `checkpoint.save` — the snapshot holds the values
of the three tracked objects at save time. -/
def Checkpoint.save {Opt Enc Dec : Type} (c : Checkpoint Opt Enc Dec) :
    Checkpoint Opt Enc Dec :=
  ⟨c.optimizer, c.encoder, c.decoder⟩

/-- Modelled from the spec: `checkpoint.restore` — restoring a snapshot
overwrites the three tracked objects with the snapshot's values, whatever
their current values are. -/
def Checkpoint.restore {Opt Enc Dec : Type} (snap _current : Checkpoint Opt Enc Dec) :
    Checkpoint Opt Enc Dec :=
  ⟨snap.optimizer, snap.encoder, snap.decoder⟩

/-- The epoch loop of the notebook's training cell over the given epoch
numbers: run each epoch (its `steps_per_epoch` many `train_step` batches, as
the abstract `runEpoch`), and at the end of every epoch with
`(epoch + 1) % 2 == 0` save the checkpoint read out of the training state by
`track`.  Returns the final state and the saved snapshots in order. -/
def epochLoopAux {S Opt Enc Dec : Type} (runEpoch : ℕ → S → S)
    (track : S → Checkpoint Opt Enc Dec) :
    List ℕ → S → S × List (Checkpoint Opt Enc Dec)
  | [], s => (s, [])
  | e :: es, s =>
    let s2 := runEpoch e s
    let r := epochLoopAux runEpoch track es s2
    if (e + 1) % 2 = 0 then (r.1, (track s2).save :: r.2) else (r.1, r.2)

/-- The notebook's training cell: `for epoch in range(EPOCHS)`. -/
def trainingRun {S Opt Enc Dec : Type} (EPOCHS : ℕ) (runEpoch : ℕ → S → S)
    (track : S → Checkpoint Opt Enc Dec) (s0 : S) :
    S × List (Checkpoint Opt Enc Dec) :=
  epochLoopAux runEpoch track (List.range EPOCHS) s0

/-- The training state after the first `k` epochs. -/
def stateAfter {S : Type} (runEpoch : ℕ → S → S) (s0 : S) : ℕ → S
  | 0 => s0
  | k + 1 => runEpoch k (stateAfter runEpoch s0 k)

theorem epochLoopAux_append {S Opt Enc Dec : Type} (runEpoch : ℕ → S → S)
    (track : S → Checkpoint Opt Enc Dec) (l1 l2 : List ℕ) (s : S) :
    epochLoopAux runEpoch track (l1 ++ l2) s
      = ((epochLoopAux runEpoch track l2 (epochLoopAux runEpoch track l1 s).1).1,
         (epochLoopAux runEpoch track l1 s).2
           ++ (epochLoopAux runEpoch track l2 (epochLoopAux runEpoch track l1 s).1).2) := by
  induction l1 generalizing s with
  | nil => simp [epochLoopAux]
  | cons e es ih =>
    by_cases h : (e + 1) % 2 = 0 <;>
      simp [epochLoopAux, h, ih, List.append_eq]

theorem epochLoopAux_state {S Opt Enc Dec : Type} (runEpoch : ℕ → S → S)
    (track : S → Checkpoint Opt Enc Dec) :
    ∀ (l : List ℕ) (s : S),
      (epochLoopAux runEpoch track l s).1 = l.foldl (fun a e => runEpoch e a) s := by
  intro l
  induction l with
  | nil => intro s; rfl
  | cons e es ih =>
    intro s
    simp only [epochLoopAux, List.foldl_cons]
    by_cases h : (e + 1) % 2 = 0
    · simp [h, ih]
    · simp [h, ih]

theorem foldl_range_stateAfter {S : Type} (runEpoch : ℕ → S → S) (s0 : S) (n : ℕ) :
    (List.range n).foldl (fun a e => runEpoch e a) s0 = stateAfter runEpoch s0 n := by
  induction n with
  | zero => rfl
  | succ n ih =>
    rw [List.range_succ, List.foldl_append, ih]
    rfl

theorem trainingRun_saves {S Opt Enc Dec : Type} (EPOCHS : ℕ) (runEpoch : ℕ → S → S)
    (track : S → Checkpoint Opt Enc Dec) (s0 : S) :
    (trainingRun EPOCHS runEpoch track s0).2
      = ((List.range EPOCHS).filter (fun e => (e + 1) % 2 == 0)).map
          (fun e => (track (stateAfter runEpoch s0 (e + 1))).save) := by
  induction EPOCHS with
  | zero => rfl
  | succ n ih =>
    rw [trainingRun, List.range_succ, epochLoopAux_append]
    have hstate : (epochLoopAux runEpoch track (List.range n) s0).1
        = stateAfter runEpoch s0 n := by
      rw [epochLoopAux_state, foldl_range_stateAfter]
    rw [List.filter_append, List.map_append]
    simp only [trainingRun] at ih
    rw [← ih]
    rw [hstate]
    by_cases h : (n + 1) % 2 = 0
    · simp only [epochLoopAux, List.filter_cons, List.filter_nil, if_pos h]
      rw [if_pos (by simpa using h)]
      simp [epochLoopAux, stateAfter]
    · simp only [epochLoopAux, List.filter_cons, List.filter_nil, if_neg h]
      rw [if_neg (by simpa using h)]
      simp [epochLoopAux]

/-- Claim C5: the checkpoint serializes exactly the optimizer state and the
encoder and decoder parameters (its three tracked objects); during training it
is saved exactly at the end of every epoch with `(epoch + 1) % 2 == 0` (every
2 epochs), the snapshot being the tracked state at that moment; and restoring
a saved snapshot restores the three tracked objects to their save-time values
— save followed by restore is a round trip — whatever the current values are. -/
theorem checkpoint_roundtrip_and_schedule {S Opt Enc Dec : Type}
    (EPOCHS : ℕ) (runEpoch : ℕ → S → S) (track : S → Checkpoint Opt Enc Dec) (s0 : S) :
    (∀ c d : Checkpoint Opt Enc Dec,
      (Checkpoint.restore (Checkpoint.save c) d).optimizer = c.optimizer ∧
      (Checkpoint.restore (Checkpoint.save c) d).encoder = c.encoder ∧
      (Checkpoint.restore (Checkpoint.save c) d).decoder = c.decoder) ∧
    (trainingRun EPOCHS runEpoch track s0).2
      = ((List.range EPOCHS).filter (fun e => (e + 1) % 2 == 0)).map
          (fun e => (track (stateAfter runEpoch s0 (e + 1))).save) :=
  ⟨fun _ _ => ⟨rfl, rfl, rfl⟩, trainingRun_saves EPOCHS runEpoch track s0⟩

end NMT
